import Mathlib

/-!
# Verification of the near-orm schema-driven data-access layer

A shallow embedding of the engine's pure logic: record values, the
query builder's cursor scan (filter / offset / limit / sort), field
declaration validation, default materialization, the auto-versioning
fingerprint logic, the per-store CRUD operations over a model of the
host IndexedDB store, the transactional batch semantics, and the
synchronous event bus.

JavaScript objects are embedded as association lists from property
names to runtime `Value`s; property reads, writes and spread-merges
are modelled by the lookup / set / merge functions below.
-/

namespace NearOrm

/-- JavaScript runtime values that can occupy a record field: the four
schema field types (`string`, `number`, `boolean`, `date` — a `Date` is
identified with its timestamp) plus `undefV`, the result of reading an
absent property. JS numbers are modelled as integers (no claim exercises
fractional values or NaN). -/
inductive Value where
  | str (s : String)
  | num (n : Int)
  | boolean (b : Bool)
  | date (t : Int)
  | undefV
deriving DecidableEq, Repr

/-- A record is a JS object: an association list from property names to
values, in property order. -/
abbrev Rec := List (String × Value)

/-- Association-list lookup (JS property access on an object, `none` when
the property is absent; also used for map-like lookups keyed by other
types). -/
def alookup {α β : Type} [DecidableEq α] : List (α × β) → α → Option β
  | [], _ => none
  | (k, v) :: rest, f => if k = f then some v else alookup rest f

/-- Property read `record[field]` in JS: an absent property reads as `undefined`. -/
def getField (r : Rec) (f : String) : Value :=
  (alookup r f).getD .undefV

/-- Property write `record[field] = v` in JS: overwrite the property if present, else
append it. -/
def setField : Rec → String → Value → Rec
  | [], k, v => [(k, v)]
  | (k', v') :: rest, k, v =>
    if k' = k then (k, v) :: rest else (k', v') :: setField rest k v

/-- The guard `typeof id === "boolean"`. -/
def isBooleanV : Value → Bool
  | .boolean _ => true
  | _ => false

/-- JS `String(value)` coercion as used by `startsWith`/`endsWith` when the
search value is not a string. Date stringification is host-defined and
modelled abstractly. -/
def jsToString : Value → String
  | .str s => s
  | .num n => toString n
  | .boolean b => if b then "true" else "false"
  | .date t => "[Date " ++ toString t ++ "]"
  | .undefV => "undefined"

/-- JS `a > b` restricted to same-type operands — the only case arising for
records conforming to one store schema, since all values of a given field
share the declared type. Comparisons involving `undefined` are `false` in
JS; mixed-type operands (which cannot arise from schema-conforming data)
are modelled as `false` as well. -/
def jsGt : Value → Value → Bool
  | .str a, .str b => decide (b < a)
  | .num a, .num b => decide (b < a)
  | .boolean a, .boolean b => a && !b
  | .date a, .date b => decide (b < a)
  | _, _ => false

/-- JS `a < b`, same-type operands (see `jsGt`). -/
def jsLt : Value → Value → Bool
  | .str a, .str b => decide (a < b)
  | .num a, .num b => decide (a < b)
  | .boolean a, .boolean b => !a && b
  | .date a, .date b => decide (a < b)
  | _, _ => false

/-! ## Query builder -/

/-- The `WhereOperator` type: the three filter operators. -/
inductive WhereOperator where
  | equals
  | startsWith
  | endsWith
deriving DecidableEq, Repr

/-- The `OrderByOperator` type: sort direction. -/
inductive OrderByOperator where
  | asc
  | desc
deriving DecidableEq, Repr

/-- One accumulated `where` clause: `{ field, operator, value }`. -/
structure Filter where
  field : String
  operator : WhereOperator
  value : Value
deriving DecidableEq, Repr

/-- The accumulated state of a `QueryBuilder`: filters, optional sort key
and direction, optional limit and offset (absent when the corresponding
fluent method was never called). -/
structure QueryBuilder where
  filters : List Filter
  sortField : Option String
  sortOrder : OrderByOperator
  limitCount : Option Nat
  offsetCount : Option Nat
deriving DecidableEq, Repr

/-- Fluent setter `QueryBuilder.limit(count)`. -/
def QueryBuilder.limit (q : QueryBuilder) (count : Nat) : QueryBuilder :=
  { q with limitCount := some count }

/-- Fluent setter `QueryBuilder.offset(count)`. -/
def QueryBuilder.offset (q : QueryBuilder) (count : Nat) : QueryBuilder :=
  { q with offsetCount := some count }

/-- One filter test: `equals` is strict equality; `startsWith`/`endsWith`
require a string-typed field value (any other type fails the predicate).
The source's `default: return true` arm is unreachable because
`WhereOperator` is exhaustive. -/
def applyFilter (r : Rec) (flt : Filter) : Bool :=
  let fieldValue := getField r flt.field
  match flt.operator with
  | .equals => decide (fieldValue = flt.value)
  | .startsWith =>
    match fieldValue with
    | .str s => s.startsWith (jsToString flt.value)
    | _ => false
  | .endsWith =>
    match fieldValue with
    | .str s => s.endsWith (jsToString flt.value)
    | _ => false

/-- Predicate `applyFilters`: logical AND of every accumulated filter. -/
def applyFilters (q : QueryBuilder) (r : Rec) : Bool :=
  q.filters.all (applyFilter r)

/-- The source comparator passed to `Array.prototype.sort`:
`0` when the key values are equal, else `±1` by `>` (ascending) or `<`
(descending). -/
def sortCompare (f : String) (ord : OrderByOperator) (a b : Rec) : Int :=
  let aValue := getField a f
  let bValue := getField b f
  if aValue = bValue then 0
  else
    match ord with
    | .asc => if jsGt aValue bValue then 1 else -1
    | .desc => if jsLt aValue bValue then 1 else -1

/-- Insert into a sorted list, after every element that does not compare
strictly greater — the position a stable sort assigns. -/
def sortedInsert (f : String) (ord : OrderByOperator) (x : Rec) :
    List Rec → List Rec
  | [] => [x]
  | y :: ys =>
    if sortCompare f ord x y < 0 then x :: y :: ys
    else y :: sortedInsert f ord x ys

/-- ECMAScript `Array.prototype.sort(comparefn)` — required by the ECMAScript spec to
be stable and sorted consistently with the comparator; modelled as a
stable insertion sort by `sortCompare`. -/
def stableSort (f : String) (ord : OrderByOperator) : List Rec → List Rec
  | [] => []
  | x :: xs => sortedInsert f ord x (stableSort f ord xs)

/-- Sorting step `applySorting`: no-op without a sort field, else sort the accumulated
results by the sort key. -/
def applySorting (q : QueryBuilder) (results : List Rec) : List Rec :=
  match q.sortField with
  | none => results
  | some f => stableSort f q.sortOrder results

/-- The guard `this.offsetCount && skipped < this.offsetCount`:
JS truthiness makes an unset or zero offset falsy. -/
def offsetPending (off : Option Nat) (skipped : Nat) : Bool :=
  match off with
  | none => false
  | some n => decide (n ≠ 0) && decide (skipped < n)

/-- The guard `this.limitCount && results.length >= this.limitCount`:
JS truthiness makes an unset or zero limit falsy. -/
def limitHit (lim : Option Nat) (len : Nat) : Bool :=
  match lim with
  | none => false
  | some n => decide (n ≠ 0) && decide (len ≥ n)

/-- The `onsuccess` cursor loop of `QueryBuilder.run`: records arrive in
forward cursor order; matching records are first skipped against the
offset, then accumulated; reaching the limit resolves early; exhausting
the cursor resolves; either resolution sorts the accumulated results. -/
def runLoop (q : QueryBuilder) : List Rec → Nat → List Rec → List Rec
  | [], _, results => applySorting q results
  | record :: rest, skipped, results =>
    if applyFilters q record then
      if offsetPending q.offsetCount skipped then
        runLoop q rest (skipped + 1) results
      else
        let results' := results ++ [record]
        if limitHit q.limitCount results'.length then
          applySorting q results'
        else
          runLoop q rest skipped results'
    else
      runLoop q rest skipped results

/-- Execution entry point `QueryBuilder.run()`: a single full forward cursor scan starting with
`skipped = 0` and an empty result accumulator. The store's records are
given in cursor (key) order. -/
def QueryBuilder.run (q : QueryBuilder) (records : List Rec) : List Rec :=
  runLoop q records 0 []

/-- The effective number of skipped matches: a zero offset is falsy and
skips nothing. -/
def effOffset (q : QueryBuilder) : Nat :=
  match q.offsetCount with
  | none => 0
  | some n => n

/-- The effective limit: `none` when unset or zero (both falsy, so the
scan never stops early). -/
def effLimit (q : QueryBuilder) : Option Nat :=
  match q.limitCount with
  | none => none
  | some 0 => none
  | some (n + 1) => some (n + 1)

/-- Truncate by an optional limit. -/
def takeOpt : Option Nat → List Rec → List Rec
  | none, l => l
  | some n, l => l.take n

theorem runLoop_spec (q : QueryBuilder) (records : List Rec) (skipped : Nat)
    (results : List Rec)
    (hlim : ∀ n, q.limitCount = some n → n ≠ 0 → results.length < n) :
    runLoop q records skipped results =
      applySorting q (results ++
        takeOpt ((effLimit q).map (fun m => m - results.length))
          ((records.filter (applyFilters q)).drop (effOffset q - skipped))) := by
  induction records generalizing skipped results with
  | nil =>
    simp [runLoop, takeOpt]
    cases h : (effLimit q).map (fun m => m - results.length) with
    | none => simp [takeOpt]
    | some m => simp [takeOpt]
  | cons record rest ih =>
    by_cases hf : applyFilters q record = true
    · by_cases hoff : offsetPending q.offsetCount skipped = true
      · -- skip branch: the record matches but is consumed by the offset
        have hrl : runLoop q (record :: rest) skipped results =
            runLoop q rest (skipped + 1) results := by
          simp [runLoop, hf, hoff]
        rw [hrl, ih (skipped + 1) results hlim]
        obtain ⟨n, hn, hn0, hsk⟩ :
            ∃ n, q.offsetCount = some n ∧ n ≠ 0 ∧ skipped < n := by
          unfold offsetPending at hoff
          cases h : q.offsetCount with
          | none => rw [h] at hoff; simp at hoff
          | some n =>
            rw [h] at hoff
            simp at hoff
            exact ⟨n, rfl, hoff.1, hoff.2⟩
        have heff : effOffset q = n := by simp [effOffset, hn]
        have hdrop :
            ((record :: rest).filter (applyFilters q)).drop (effOffset q - skipped) =
              (rest.filter (applyFilters q)).drop (effOffset q - (skipped + 1)) := by
          rw [List.filter_cons_of_pos hf, heff]
          have h1 : n - skipped = (n - (skipped + 1)) + 1 := by omega
          rw [h1, List.drop_succ_cons]
        rw [hdrop]
      · -- accumulate branch: record is pushed onto the results
        have heffz : effOffset q - skipped = 0 := by
          unfold offsetPending at hoff
          cases h : q.offsetCount with
          | none => simp [effOffset, h]
          | some n =>
            rw [h] at hoff
            simp [effOffset, h]
            simp at hoff
            omega
        by_cases hl : limitHit q.limitCount (results.length + 1) = true
        · -- early resolution: the limit is reached
          have hrl : runLoop q (record :: rest) skipped results =
              applySorting q (results ++ [record]) := by
            simp [runLoop, hf, hoff, hl]
          obtain ⟨m, hm, hm0, hge⟩ :
              ∃ m, q.limitCount = some m ∧ m ≠ 0 ∧ m ≤ results.length + 1 := by
            unfold limitHit at hl
            cases h : q.limitCount with
            | none => rw [h] at hl; simp at hl
            | some m =>
              rw [h] at hl
              simp at hl
              exact ⟨m, rfl, hl.1, hl.2⟩
          have hlt : results.length < m := hlim m hm hm0
          have hsub : m - results.length = 1 := by omega
          have hel : effLimit q = some m := by
            unfold effLimit
            rw [hm]
            cases m with
            | zero => exact absurd rfl hm0
            | succ k => rfl
          rw [hrl, heffz, List.drop_zero, List.filter_cons_of_pos hf, hel]
          simp only [Option.map_some', hsub, takeOpt]
          simp
        · -- continue scanning with the record accumulated
          have hrl : runLoop q (record :: rest) skipped results =
              runLoop q rest skipped (results ++ [record]) := by
            simp [runLoop, hf, hoff, hl]
          have hlim' : ∀ n, q.limitCount = some n → n ≠ 0 →
              (results ++ [record]).length < n := by
            intro n hn hn0
            unfold limitHit at hl
            rw [hn] at hl
            simp [hn0] at hl
            simpa using hl
          rw [hrl, ih skipped (results ++ [record]) hlim', heffz]
          simp only [List.drop_zero, List.filter_cons_of_pos hf,
            List.length_append, List.length_cons, List.length_nil]
          cases hel : effLimit q with
          | none => simp [takeOpt]
          | some m =>
            have hm : q.limitCount = some m ∧ m ≠ 0 := by
              unfold effLimit at hel
              cases h : q.limitCount with
              | none => rw [h] at hel; simp at hel
              | some k =>
                rw [h] at hel
                cases k with
                | zero => simp at hel
                | succ j =>
                  simp at hel
                  subst hel
                  exact ⟨rfl, by omega⟩
            have hlt : results.length < m := hlim m hm.1 hm.2
            have htk : m - results.length = (m - (results.length + 0 + 1)) + 1 := by
              omega
            simp only [Option.map_some', takeOpt, htk, List.take_succ_cons]
            simp
    · -- non-matching record: filtered out, loop state unchanged
      have hrl : runLoop q (record :: rest) skipped results =
          runLoop q rest skipped results := by
        simp [runLoop, hf]
      rw [hrl, ih skipped results hlim, List.filter_cons_of_neg (by simpa using hf)]

/-- C1: Query execution tests records against all filters in forward
cursor order; the first `offset` matches are skipped without counting
toward `limit`; subsequent matches accumulate until `limit` is reached
and the scan stops; sorting by the `orderBy` key is applied only to the
accumulated set afterwards — the returned page is the cursor-order
filtered sequence, truncated by offset then limit, and only then
sorted. -/
theorem c1_filter_paginate_then_sort (q : QueryBuilder) (records : List Rec) :
    QueryBuilder.run q records =
      applySorting q
        (takeOpt (effLimit q)
          ((records.filter (applyFilters q)).drop (effOffset q))) := by
  have h := runLoop_spec q records 0 []
    (by intro n hn hn0; simpa using Nat.pos_of_ne_zero hn0)
  rw [QueryBuilder.run, h]
  cases hel : effLimit q <;> simp [takeOpt]

theorem applyFilters_congr (q1 q2 : QueryBuilder) (h : q1.filters = q2.filters) :
    applyFilters q1 = applyFilters q2 := by
  funext r
  simp [applyFilters, h]

theorem applySorting_congr (q1 q2 : QueryBuilder) (hs : q1.sortField = q2.sortField)
    (ho : q1.sortOrder = q2.sortOrder) :
    applySorting q1 = applySorting q2 := by
  funext l
  simp [applySorting, hs, ho]

/-- C10: a zero limit or offset is falsy in the pagination guards, so
`limit(0)` and `offset(0)` behave exactly as if the bound had never been
set — `limit(0)` returns every matching record rather than none, and
`offset(0)` skips nothing. -/
theorem c10_zero_limit_offset_ignored (q : QueryBuilder) (records : List Rec) :
    QueryBuilder.run (q.limit 0) records =
      QueryBuilder.run { q with limitCount := none } records ∧
    QueryBuilder.run (q.offset 0) records =
      QueryBuilder.run { q with offsetCount := none } records := by
  constructor
  · have h1 := runLoop_spec (q.limit 0) records 0 []
      (by intro n hn hn0; simp [QueryBuilder.limit] at hn; omega)
    have h2 := runLoop_spec { q with limitCount := none } records 0 []
      (by intro n hn hn0; simp at hn)
    rw [QueryBuilder.run, h1, QueryBuilder.run, h2,
      applyFilters_congr (q.limit 0) { q with limitCount := none } rfl,
      applySorting_congr (q.limit 0) { q with limitCount := none } rfl rfl,
      show effLimit (q.limit 0) = effLimit { q with limitCount := none } from rfl,
      show effOffset (q.limit 0) = effOffset { q with limitCount := none } from rfl]
  · have h1 := runLoop_spec (q.offset 0) records 0 []
      (by intro n hn hn0; simpa using Nat.pos_of_ne_zero hn0)
    have h2 := runLoop_spec { q with offsetCount := none } records 0 []
      (by intro n hn hn0; simpa using Nat.pos_of_ne_zero hn0)
    rw [QueryBuilder.run, h1, QueryBuilder.run, h2,
      applyFilters_congr (q.offset 0) { q with offsetCount := none } rfl,
      applySorting_congr (q.offset 0) { q with offsetCount := none } rfl rfl,
      show effLimit (q.offset 0) = effLimit { q with offsetCount := none } from rfl,
      show effOffset (q.offset 0) = effOffset { q with offsetCount := none } from rfl]

/-! ## Field declarations and the `field` construction function -/

/-- The four declarable field types. -/
inductive FieldType where
  | string
  | number
  | boolean
  | date
deriving DecidableEq, Repr

/-- The runtime type-tag string of a field type. -/
def FieldType.tag : FieldType → String
  | .string => "string"
  | .number => "number"
  | .boolean => "boolean"
  | .date => "date"

/-- Tagged default-value variants: `autoincrement`, `now`,
`static(value)` and `function(fn)` (the user function is invoked at
write time). -/
inductive DefaultSpec where
  | autoincrement
  | now
  | staticD (value : Value)
  | functionD (fn : Unit → Value)

/-- The runtime tag string `default.type` of a default spec. -/
def DefaultSpec.tag : DefaultSpec → String
  | .autoincrement => "autoincrement"
  | .now => "now"
  | .staticD _ => "static"
  | .functionD _ => "function"

/-- The input of `field(...)`: `{ type, primaryKey?, unique?, default? }`
(an absent optional flag is `false`, an absent default is `none`). -/
structure FieldDefinition where
  type : FieldType
  primaryKey : Bool
  unique : Bool
  default : Option DefaultSpec

/-- The sealed descriptor produced by `field`: the definition plus the
`hasDefault` / `isPrimaryKey` metadata flags (the symbol marker is
implicit in the type). -/
structure FieldDefinitionWithMeta extends FieldDefinition where
  hasDefault : Bool
  isPrimaryKey : Bool

/-- Success test on a fallible result. -/
def isOkE {ε α : Type} : Except ε α → Bool
  | .ok _ => true
  | .error _ => false

/-- Metadata attachment performed after all checks pass. -/
def sealField (definition : FieldDefinition) : FieldDefinitionWithMeta :=
  { toFieldDefinition := definition,
    hasDefault := definition.default.isSome,
    isPrimaryKey := definition.primaryKey }

/-- The `field` construction function: rejects a primary key whose type is
not number/string/date, then validates the default's tag against the
field type (number allows autoincrement/static/function, date allows
now/static/function, string and boolean allow static/function); on
success attaches the metadata flags. -/
def field (definition : FieldDefinition) : Except String FieldDefinitionWithMeta :=
  if definition.primaryKey &&
      !(["number", "string", "date"].contains definition.type.tag) then
    .error "Primary key must be of type number, string or date"
  else
    match definition.default with
    | none => .ok (sealField definition)
    | some df =>
      match definition.type with
      | .number =>
        if !(["autoincrement", "static", "function"].contains df.tag) then
          .error "Invalid default type for number field"
        else .ok (sealField definition)
      | .date =>
        if !(["now", "static", "function"].contains df.tag) then
          .error "Invalid default type for date field"
        else .ok (sealField definition)
      | .string | .boolean =>
        if !(["static", "function"].contains df.tag) then
          .error "Invalid default type for string or boolean field"
        else .ok (sealField definition)

/-- C5 counterexample: an `autoincrement` default on a `number` field that
is **not** a primary key passes `field`'s validation — the declaration is
accepted, not rejected: primary-key status is never consulted when the
default is checked. -/
theorem c5_counterexample_autoincrement_non_pk_accepted :
    isOkE (field { type := .number, primaryKey := false, unique := false,
                   default := some .autoincrement }) = true := rfl

/-- C5 (amended): `field` rejects a `now` default on a non-`date` field
and rejects an `autoincrement` default on a non-`number` field, but it
accepts an `autoincrement` default on a `number` field that is not a
primary key — the primary-key flag plays no part in default
validation. -/
theorem c5_amended_field_validation (t : FieldType) (pk u : Bool) :
    (t ≠ .date →
      isOkE (field { type := t, primaryKey := pk, unique := u,
                     default := some .now }) = false) ∧
    (t ≠ .number →
      isOkE (field { type := t, primaryKey := pk, unique := u,
                     default := some .autoincrement }) = false) ∧
    isOkE (field { type := .number, primaryKey := false, unique := u,
                   default := some .autoincrement }) = true := by
  refine ⟨?_, ?_, rfl⟩
  · intro h
    cases t <;> cases pk <;> first | rfl | exact absurd rfl h
  · intro h
    cases t <;> cases pk <;> first | rfl | exact absurd rfl h

theorem c5_amended_field_validation_witness :
    isOkE (field { type := .string, primaryKey := false, unique := false,
                   default := some .now }) = false ∧
    isOkE (field { type := .date, primaryKey := false, unique := false,
                   default := some .autoincrement }) = false :=
  ⟨(c5_amended_field_validation .string false false).1 (by decide),
   (c5_amended_field_validation .date false false).2.1 (by decide)⟩

/-! ## Default materialization (`ORM.applyDefaults`) -/

/-- Store fields as held by the schema: field name to sealed descriptor,
in declaration order (`Object.entries` order). -/
abbrev StoreFields := List (String × FieldDefinitionWithMeta)

/-- The value a declared default materializes to at write time (`now` is
the write-time timestamp, passed in as `now`), or `none` when the field
has no default or an `autoincrement` default (left for the host store). -/
def materializeDefault (now : Int) : Option DefaultSpec → Option Value
  | some .now => some (.date now)
  | some (.staticD v) => some v
  | some (.functionD fn) => some (fn ())
  | some .autoincrement => none
  | none => none

/-- The loop of `ORM.applyDefaults` over `Object.entries(fields)`:
fields present in the input `data` are skipped (`continue`); an absent
field with a default is written into the result per its variant (`now` →
`new Date()` at write time, `static` → the value, `function` → `fn()`
invoked at write time); `autoincrement` and missing defaults do
nothing. -/
def applyDefaultsAux (data : Rec) (now : Int) :
    StoreFields → Rec → Rec
  | [], result => result
  | (fieldName, fieldSchema) :: rest, result =>
    if (alookup data fieldName).isSome then
      applyDefaultsAux data now rest result
    else
      match materializeDefault now fieldSchema.default with
      | some v => applyDefaultsAux data now rest (setField result fieldName v)
      | none => applyDefaultsAux data now rest result

/-- Materialization entry point `ORM.applyDefaults`: starts from a copy of
the input record (`{ ...data }`) and fills in absent defaulted fields. -/
def applyDefaults (fields : StoreFields) (now : Int) (data : Rec) : Rec :=
  applyDefaultsAux data now fields data

theorem alookup_setField_self (r : Rec) (k : String) (v : Value) :
    alookup (setField r k v) k = some v := by
  induction r with
  | nil => simp [setField, alookup]
  | cons kv rest ih =>
    by_cases h : kv.1 = k
    · simp [setField, h, alookup]
    · simp [setField, h, alookup, ih]

theorem alookup_setField_ne (r : Rec) (k g : String) (v : Value) (h : k ≠ g) :
    alookup (setField r k v) g = alookup r g := by
  induction r with
  | nil => simp [setField, alookup, h]
  | cons kv rest ih =>
    by_cases hk : kv.1 = k
    · simp [setField, hk, alookup, h]
    · simp [setField, hk, alookup, ih]

theorem applyDefaultsAux_mem (data : Rec) (now : Int) (fields : StoreFields)
    (result : Rec) (g : String) (hg : (alookup data g).isSome) :
    alookup (applyDefaultsAux data now fields result) g = alookup result g := by
  induction fields generalizing result with
  | nil => rfl
  | cons f rest ih =>
    obtain ⟨fieldName, fieldSchema⟩ := f
    by_cases hd : (alookup data fieldName).isSome
    · simp [applyDefaultsAux, hd, ih]
    · have hne : fieldName ≠ g := by
        intro he
        rw [he] at hd
        exact hd hg
      cases hm : materializeDefault now fieldSchema.default with
      | none => simp [applyDefaultsAux, hd, hm, ih]
      | some v =>
        simp [applyDefaultsAux, hd, hm, ih, alookup_setField_ne _ _ _ _ hne]

theorem applyDefaultsAux_notmem (data : Rec) (now : Int) (fields : StoreFields)
    (result : Rec) (g : String) (hg : g ∉ fields.map Prod.fst) :
    alookup (applyDefaultsAux data now fields result) g = alookup result g := by
  induction fields generalizing result with
  | nil => rfl
  | cons f rest ih =>
    obtain ⟨fieldName, fieldSchema⟩ := f
    rw [List.map_cons] at hg
    have hne : fieldName ≠ g := by
      intro he
      exact hg (by rw [← he]; exact List.mem_cons_self _ _)
    have hg2 : g ∉ rest.map Prod.fst := fun hm => hg (List.mem_cons_of_mem _ hm)
    by_cases hd : (alookup data fieldName).isSome
    · simp [applyDefaultsAux, hd, ih _ hg2]
    · cases hm : materializeDefault now fieldSchema.default with
      | none => simp [applyDefaultsAux, hd, hm, ih _ hg2]
      | some v =>
        simp [applyDefaultsAux, hd, hm, ih _ hg2,
          alookup_setField_ne _ _ _ _ hne]

theorem applyDefaultsAux_absent (data : Rec) (now : Int) (fields : StoreFields)
    (result : Rec) (g : String) (fs : FieldDefinitionWithMeta)
    (hdata : alookup data g = none)
    (hnd : (fields.map Prod.fst).Nodup)
    (hmem : (g, fs) ∈ fields) :
    alookup (applyDefaultsAux data now fields result) g =
      ((materializeDefault now fs.default).or (alookup result g)) := by
  induction fields generalizing result with
  | nil => cases hmem
  | cons f rest ih =>
    obtain ⟨fieldName, fieldSchema⟩ := f
    rw [List.map_cons, List.nodup_cons] at hnd
    rcases List.mem_cons.mp hmem with hhd | htl
    · have he1 : g = fieldName := congrArg Prod.fst hhd
      have he2 : fs = fieldSchema := congrArg Prod.snd hhd
      subst he1
      subst he2
      cases hm : materializeDefault now fs.default with
      | none =>
        simp [applyDefaultsAux, hdata, hm,
          applyDefaultsAux_notmem data now rest result g hnd.1]
      | some v =>
        simp [applyDefaultsAux, hdata, hm,
          applyDefaultsAux_notmem data now rest (setField result g v) g hnd.1,
          alookup_setField_self]
    · have hgrest : g ∈ rest.map Prod.fst :=
        List.mem_map.mpr ⟨(g, fs), htl, rfl⟩
      have hne : fieldName ≠ g := fun he => hnd.1 (he ▸ hgrest)
      by_cases hd : (alookup data fieldName).isSome
      · simp [applyDefaultsAux, hd, ih _ hnd.2 htl]
      · cases hm : materializeDefault now fieldSchema.default with
        | none => simp [applyDefaultsAux, hd, hm, ih _ hnd.2 htl]
        | some v =>
          simp [applyDefaultsAux, hd, hm, ih _ hnd.2 htl,
            alookup_setField_ne _ _ _ _ hne]

/-- C8: default materialization fills exactly the fields absent from the
input that carry a materializable default — `now` becomes the write-time
timestamp, `static(v)` becomes `v`, `function(f)` becomes `f ()` invoked
at write time — while `autoincrement` fields and fields without a default
stay absent, fields outside the schema stay absent, and every field
present in the input keeps its input value unchanged. `now` is the
write-time clock value (the `new Date()` constructed during the call). -/
theorem c8_apply_defaults_exact (fields : StoreFields) (now : Int) (data : Rec)
    (hnd : (fields.map Prod.fst).Nodup) :
    (∀ g, (alookup data g).isSome →
      alookup (applyDefaults fields now data) g = alookup data g) ∧
    (∀ g fs, alookup data g = none → (g, fs) ∈ fields →
      alookup (applyDefaults fields now data) g = materializeDefault now fs.default) ∧
    (∀ g, alookup data g = none → g ∉ fields.map Prod.fst →
      alookup (applyDefaults fields now data) g = none) := by
  refine ⟨?_, ?_, ?_⟩
  · intro g hg
    exact applyDefaultsAux_mem data now fields data g hg
  · intro g fs hdata hmem
    rw [applyDefaults, applyDefaultsAux_absent data now fields data g fs hdata hnd hmem,
      hdata]
    cases materializeDefault now fs.default <;> rfl
  · intro g hdata hg
    rw [applyDefaults, applyDefaultsAux_notmem data now fields data g hg, hdata]

theorem c8_apply_defaults_exact_witness :
    ((([("id", FieldDefinitionWithMeta.mk ⟨.string, true, false, none⟩ false true),
        ("name", FieldDefinitionWithMeta.mk ⟨.string, false, false, none⟩ false false),
        ("published", FieldDefinitionWithMeta.mk
          ⟨.boolean, false, false, some (.staticD (.boolean false))⟩ true false),
        ("createdAt", FieldDefinitionWithMeta.mk
          ⟨.date, false, false, some .now⟩ true false)] :
        StoreFields).map Prod.fst).Nodup) ∧
    (alookup (applyDefaults
        [("id", FieldDefinitionWithMeta.mk ⟨.string, true, false, none⟩ false true),
         ("name", FieldDefinitionWithMeta.mk ⟨.string, false, false, none⟩ false false),
         ("published", FieldDefinitionWithMeta.mk
           ⟨.boolean, false, false, some (.staticD (.boolean false))⟩ true false),
         ("createdAt", FieldDefinitionWithMeta.mk
           ⟨.date, false, false, some .now⟩ true false)]
        42 [("id", .str "1"), ("name", .str "John")]) "name" = some (.str "John")) :=
  ⟨by decide,
   (c8_apply_defaults_exact _ 42 [("id", .str "1"), ("name", .str "John")]
      (by decide)).1 "name" (by decide)⟩

/-! ## The auto-versioning fingerprint (`ORM.calculateSchemaVersion`) -/

/-- A schema as held by the engine: store name to its fields, in
declaration order. -/
abbrev SchemaM := List (String × StoreFields)

/-- The fingerprint computed by the loop in `calculateSchemaVersion`:
the sum over all stores of `Object.keys(fields).length`. -/
def schemaFingerprint (schema : SchemaM) : Nat :=
  (schema.map (fun s => s.2.length)).sum

/-- The per-instance version state: `currentVersion` and the private
`#schemaLength` fingerprint field. -/
structure VersionState where
  currentVersion : Nat
  schemaLength : Nat
deriving DecidableEq, Repr

/-- Version computation `ORM.calculateSchemaVersion`: compares the freshly
computed fingerprint against the stored `#schemaLength`, stores the fresh
value, and bumps `currentVersion` by exactly 1 when they differ, else
leaves it unchanged. Returns the target version and the updated
instance state. -/
def calculateSchemaVersion (schema : SchemaM) (st : VersionState) :
    Nat × VersionState :=
  let currentSchemaLength := schemaFingerprint schema
  let previousSchemaLength := st.schemaLength
  let currentVersion := st.currentVersion
  if previousSchemaLength ≠ currentSchemaLength then
    (currentVersion + 1, ⟨currentVersion + 1, currentSchemaLength⟩)
  else
    (currentVersion, ⟨currentVersion, currentSchemaLength⟩)

/-- The version state of a freshly constructed `ORM` instance right after
the host database opened: the constructor initializes `#schemaLength = 0`
and the open `onsuccess` handler sets `currentVersion = db.version`. -/
def freshInstanceState (dbVersion : Nat) : VersionState :=
  ⟨dbVersion, 0⟩

/-- Opening the database under the `auto` policy
(`initializeDatabase` + `checkAndApplyMigrations`): the target version is
`calculateSchemaVersion` evaluated on the fresh instance state, and the
database migrates to it exactly when it exceeds the current persisted
version. Returns the persisted version after the open completes. -/
def openSession (schema : SchemaM) (dbVersion : Nat) : Nat :=
  let st := freshInstanceState dbVersion
  let target := (calculateSchemaVersion schema st).1
  if dbVersion < target then target else dbVersion

/-- A two-field single-store schema (primary key `id`, plus `name`),
used as a concrete input. -/
def sampleUsersSchema : SchemaM :=
  [("users",
    [("id", FieldDefinitionWithMeta.mk ⟨.string, true, false, none⟩ false true),
     ("name", FieldDefinitionWithMeta.mk ⟨.string, false, false, none⟩ false false)])]

/-- C3 counterexample: reopening with an unchanged schema does **not**
keep the version unchanged. A first open of the two-field schema on a
version-1 database migrates to version 2; reopening the same unchanged
schema (a fresh instance, whose stored fingerprint is re-initialized
to 0) computes a differing fingerprint again and bumps to version 3. -/
theorem c3_counterexample_reopen_bumps_version :
    openSession sampleUsersSchema 1 = 2 ∧
    openSession sampleUsersSchema (openSession sampleUsersSchema 1) ≠
      openSession sampleUsersSchema 1 := by
  constructor
  · rfl
  · decide

/-- C3 (amended): the fingerprint is the sum over stores of their field
counts; the target version equals the stored current version plus exactly
1 when the stored fingerprint differs from the fresh one, and equals the
unchanged current version when they are equal. But the stored fingerprint
is per-instance in-memory state initialized to 0, so reopening (with a
fresh instance) under any nonempty schema always sees a differing
fingerprint and bumps the persisted version by 1 — the version stays
unchanged only when the instance's stored fingerprint already equals the
fresh one. -/
theorem c3_amended_fingerprint_versioning (schema : SchemaM) (st : VersionState) :
    (st.schemaLength ≠ schemaFingerprint schema →
      (calculateSchemaVersion schema st).1 = st.currentVersion + 1) ∧
    (st.schemaLength = schemaFingerprint schema →
      (calculateSchemaVersion schema st).1 = st.currentVersion) ∧
    (∀ v, schemaFingerprint schema ≠ 0 → openSession schema v = v + 1) := by
  refine ⟨?_, ?_, ?_⟩
  · intro h
    simp [calculateSchemaVersion, h]
  · intro h
    simp [calculateSchemaVersion, h]
  · intro v h
    simp [openSession, freshInstanceState, calculateSchemaVersion, Ne.symm h]

theorem c3_amended_fingerprint_versioning_witness :
    ((calculateSchemaVersion sampleUsersSchema ⟨3, 0⟩).1 = 4) ∧
    ((calculateSchemaVersion sampleUsersSchema ⟨3, 2⟩).1 = 3) ∧
    (openSession sampleUsersSchema 7 = 8) :=
  ⟨(c3_amended_fingerprint_versioning sampleUsersSchema ⟨3, 0⟩).1 (by decide),
   (c3_amended_fingerprint_versioning sampleUsersSchema ⟨3, 2⟩).2.1 (by decide),
   (c3_amended_fingerprint_versioning sampleUsersSchema ⟨3, 0⟩).2.2 7 (by decide)⟩

/-! ## Host store model and transactional CRUD

The engine runs against a host IndexedDB database. The host store itself
is not part of this repository; its request semantics (keyed `add`/`put`/
`get`/`delete`, unique indexes, transactional all-or-nothing commit) are
modelled from the spec (§2, §4.1, §5, glossary) below, and the engine's
own methods (`createModelMethods`, `transaction`, `seed`) are translated
from the source on top of that model. -/

/-- Failure taxonomy surfaced by operations (spec §7). -/
inductive DBError where
  | constraint
  | dataErr
  | notFound
  | invalidKey
  | config
  | host
deriving DecidableEq, Repr

/-- Modelled from the spec: one host object store — its key-generator
state (for `autoIncrement` stores) and its records in key-insertion
order (the cursor order). -/
structure StoreSt where
  keyGen : Nat
  recs : List Rec
deriving DecidableEq, Repr

/-- The whole host database: store name to store state. -/
abbrev DBState := List (String × StoreSt)

/-- Events emitted through `events.trigger` on successful mutations. -/
inductive Event where
  | create (storeName : String) (record : Rec)
  | update (storeName : String) (record : Rec)
  | delete (storeName : String) (id : Value)
deriving DecidableEq, Repr

/-- Requests issued to the host store by a model method. -/
inductive Req where
  | get (storeName : String) (key : Value)
  | add (storeName : String) (record : Rec)
  | put (storeName : String) (record : Rec)
  | del (storeName : String) (key : Value)
deriving DecidableEq, Repr

/-- The store's primary-key field:
`Object.keys(fields).find(f => fields[f].primaryKey)`. -/
def pkFieldOf (fields : StoreFields) : Option String :=
  (fields.find? (fun f => f.2.primaryKey)).map Prod.fst

/-- Whether the store was created with `autoIncrement: true` — exactly
when the primary-key field's default is `autoincrement`. -/
def pkAutoIncrement (fields : StoreFields) (pk : String) : Bool :=
  match alookup fields pk with
  | some fs =>
    match fs.default with
    | some .autoincrement => true
    | _ => false
  | none => false

/-- Valid IndexedDB key types: number, string, date (booleans and
`undefined` are not valid keys). -/
def validKey : Value → Bool
  | .num _ => true
  | .str _ => true
  | .date _ => true
  | _ => false

/-- Modelled from the spec: a unique-index violation — some `unique`
field of the incoming record carries a value already present on an
existing record of the store. -/
def uniqueClash (fields : StoreFields) (recs : List Rec) (stored : Rec) : Bool :=
  fields.any (fun f =>
    f.2.unique &&
      match alookup stored f.1 with
      | some v => recs.any (fun r => decide (alookup r f.1 = some v))
      | none => false)

/-- Modelled from the spec: a unique-index violation ignoring the record
stored under the incoming record's own key (for `put`, which replaces
that record). -/
def uniqueClashExcluding (fields : StoreFields) (recs : List Rec) (stored : Rec)
    (pk : String) (key : Value) : Bool :=
  fields.any (fun f =>
    f.2.unique &&
      match alookup stored f.1 with
      | some v => recs.any (fun r =>
          !(decide (alookup r pk = some key)) && decide (alookup r f.1 = some v))
      | none => false)

/-- Modelled from the spec: the host `store.add(data)` request. The key is
the value at the keyPath (the primary-key field), or is generated when the
store auto-increments (and then injected into the stored value); a missing
or invalid key is a data error; a duplicate key or unique-index clash is a
constraint error; on success the record is appended in key-insertion
order and the key is the request's result. -/
def addRecord (fields : StoreFields) (st : StoreSt) (data : Rec) :
    Except DBError (StoreSt × Value) :=
  match pkFieldOf fields with
  | none => .error .config
  | some pk =>
    match alookup data pk with
    | some v =>
      if !(validKey v) then .error .dataErr
      else if st.recs.any (fun r => decide (alookup r pk = some v)) then
        .error .constraint
      else if uniqueClash fields st.recs data then .error .constraint
      else .ok (⟨st.keyGen, st.recs ++ [data]⟩, v)
    | none =>
      if pkAutoIncrement fields pk then
        let v := Value.num st.keyGen
        let stored := setField data pk v
        if st.recs.any (fun r => decide (alookup r pk = some v)) then
          .error .constraint
        else if uniqueClash fields st.recs stored then .error .constraint
        else .ok (⟨st.keyGen + 1, st.recs ++ [stored]⟩, v)
      else .error .dataErr

/-- Modelled from the spec: the host `store.put(data)` request — like
`add`, but a record already stored under the incoming key is replaced
instead of raising a constraint error. -/
def putRecord (fields : StoreFields) (st : StoreSt) (data : Rec) :
    Except DBError (StoreSt × Value) :=
  match pkFieldOf fields with
  | none => .error .config
  | some pk =>
    match alookup data pk with
    | some v =>
      if !(validKey v) then .error .dataErr
      else if uniqueClashExcluding fields st.recs data pk v then .error .constraint
      else if st.recs.any (fun r => decide (alookup r pk = some v)) then
        .ok (⟨st.keyGen,
          st.recs.map (fun r => if alookup r pk = some v then data else r)⟩, v)
      else .ok (⟨st.keyGen, st.recs ++ [data]⟩, v)
    | none =>
      if pkAutoIncrement fields pk then
        let v := Value.num st.keyGen
        let stored := setField data pk v
        if uniqueClash fields st.recs stored then .error .constraint
        else .ok (⟨st.keyGen + 1, st.recs ++ [stored]⟩, v)
      else .error .dataErr

/-- Modelled from the spec: the host `store.get(id)` request — the record
stored under primary key `id`, if any. -/
def findRecord (fields : StoreFields) (recs : List Rec) (id : Value) : Option Rec :=
  match pkFieldOf fields with
  | none => none
  | some pk => recs.find? (fun r => decide (alookup r pk = some id))

/-- Replace one store's state inside the database. -/
def updateStore (db : DBState) (storeName : String) (st : StoreSt) : DBState :=
  db.map (fun s => if s.1 = storeName then (storeName, st) else s)

/-- JS object spread `{ ...a, ...b }`: `a`'s properties in order with
values overridden by `b` where both define them, followed by `b`'s
properties absent from `a`. -/
def jsMerge (a b : Rec) : Rec :=
  a.map (fun kv => (kv.1, (alookup b kv.1).getD kv.2)) ++
    b.filter (fun kv => (alookup a kv.1).isNone)

/-- First-some choice on options (JS `??`-like selection used to state
merge lookups). -/
def optOr {α : Type} : Option α → Option α → Option α
  | some a, _ => some a
  | none, o => o

/-! ### The engine's model methods (`createModelMethods`) -/

/-- Method `create(data)` executed against a transaction: materialize
defaults, require a primary-key field, issue `add`, and on success emit a
`create` event carrying the materialized record with the host-assigned
key merged in (`{ ...fullData, [primaryKeyField]: id }`). -/
def execCreate (schema : SchemaM) (now : Int) (db : DBState) (storeName : String)
    (data : Rec) : Except DBError (DBState × Event) :=
  match alookup schema storeName, alookup db storeName with
  | some fields, some st =>
    let fullData := applyDefaults fields now data
    match pkFieldOf fields with
    | none => .error .config
    | some pk =>
      match addRecord fields st fullData with
      | .error e => .error e
      | .ok (st', id) =>
        .ok (updateStore db storeName st',
          .create storeName (setField fullData pk id))
  | _, _ => .error .host

/-- Method `findById(id)`: the transaction and object store are obtained
first (no request issued), then a boolean id is rejected with an
invalid-key error before the `get` request is made; otherwise the `get`
request is issued and its result (or absence) returned. Alongside the
result, the list of host requests actually issued is returned. -/
def findByIdOp (fields : StoreFields) (db : DBState) (storeName : String)
    (id : Value) : Except DBError (Option Rec) × List Req :=
  match alookup db storeName with
  | none => (.error .host, [])
  | some st =>
    if isBooleanV id then (.error .invalidKey, [])
    else (.ok (findRecord fields st.recs id), [.get storeName id])

/-- Method `update(id, data)`: after the boolean-id guard, `get` the
existing record (absence is a not-found error), merge
`{ ...existing, ...data }`, `put` the merged record back, and emit an
`update` event with the merged record. Returns the operation result, the
database state afterwards (unchanged on failure), and the issued
requests. -/
def updateOp (fields : StoreFields) (db : DBState) (storeName : String)
    (id : Value) (data : Rec) :
    Except DBError (Rec × Event) × DBState × List Req :=
  match alookup db storeName with
  | none => (.error .host, db, [])
  | some st =>
    if isBooleanV id then (.error .invalidKey, db, [])
    else
      match findRecord fields st.recs id with
      | none => (.error .notFound, db, [.get storeName id])
      | some existing =>
        let updatedData := jsMerge existing data
        match putRecord fields st updatedData with
        | .error e => (.error e, db, [.get storeName id, .put storeName updatedData])
        | .ok (st', _) =>
          (.ok (updatedData, .update storeName updatedData),
            updateStore db storeName st',
            [.get storeName id, .put storeName updatedData])

/-- Method `delete(id)`: after the boolean-id guard, issue the `delete`
request (which succeeds whether or not a record is stored under `id`) and
emit a `delete` event with the raw id. -/
def deleteOp (fields : StoreFields) (db : DBState) (storeName : String)
    (id : Value) : Except DBError Event × DBState × List Req :=
  match alookup db storeName with
  | none => (.error .host, db, [])
  | some st =>
    if isBooleanV id then (.error .invalidKey, db, [])
    else
      match pkFieldOf fields with
      | none => (.error .config, db, [.del storeName id])
      | some pk =>
        (.ok (.delete storeName id),
          updateStore db storeName
            ⟨st.keyGen, st.recs.filter (fun r => !(decide (alookup r pk = some id)))⟩,
          [.del storeName id])

/-! ### Transactions (`ORM.transaction`) and seeding (`ORM.seed`) -/

/-- An operation the caller's transaction callback issues through the
per-store model methods bound to the shared transaction. The claims
exercise writes (`create`). -/
inductive TrxOp where
  | create (storeName : String) (data : Rec)

/-- Dispatch of one callback operation against the shared transaction. -/
def execOp (schema : SchemaM) (now : Int) (db : DBState) :
    TrxOp → Except DBError (DBState × Event)
  | .create s d => execCreate schema now db s d

/-- The callback's operations applied in issuance order; the first failed
request fails the whole batch. -/
def runTrxOps (schema : SchemaM) (now : Int) (db : DBState) :
    List TrxOp → Except DBError (DBState × List Event)
  | [] => .ok (db, [])
  | op :: rest =>
    match execOp schema now db op with
    | .error e => .error e
    | .ok (db', ev) =>
      match runTrxOps schema now db' rest with
      | .error e => .error e
      | .ok (db'', evs) => .ok (db'', ev :: evs)

/-- Modelled from the spec: `ORM.transaction(callback)` — a single
read-write transaction spanning all stores; all the callback's operations
commit together when every request succeeded, and when any request fails
(or the callback rejects, which aborts the transaction) none of the
writes — earlier successful ones included — remains visible (§5).
Returns the database after the transaction and whether it committed. -/
def ormTransaction (schema : SchemaM) (now : Int) (db : DBState)
    (ops : List TrxOp) : DBState × Bool :=
  match runTrxOps schema now db ops with
  | .ok (db', _) => (db', true)
  | .error _ => (db, false)

/-- The inner loop of `ORM.seed` for one store: each record is
materialized with `applyDefaults`, written with `store.add`, and a
`create` event carrying the materialized record is emitted per successful
write. -/
def seedRecs (fields : StoreFields) (storeName : String) (now : Int)
    (st : StoreSt) : List Rec → Except DBError (StoreSt × List Event)
  | [] => .ok (st, [])
  | record :: rest =>
    let fullData := applyDefaults fields now record
    match addRecord fields st fullData with
    | .error e => .error e
    | .ok (st', _) =>
      match seedRecs fields storeName now st' rest with
      | .error e => .error e
      | .ok (st'', evs) => .ok (st'', .create storeName fullData :: evs)

/-- Bulk seeding `ORM.seed(data)`: one transaction over exactly the seeded
stores; every record of every store is added within it; any failed request
rejects (and, per the host model, aborts the whole batch — the error
result carries no state change). -/
def seedOp (schema : SchemaM) (now : Int) (db : DBState) :
    List (String × List Rec) → Except DBError (DBState × List Event)
  | [] => .ok (db, [])
  | (storeName, records) :: rest =>
    match alookup schema storeName, alookup db storeName with
    | some fields, some st =>
      match seedRecs fields storeName now st records with
      | .error e => .error e
      | .ok (st', evs) =>
        match seedOp schema now (updateStore db storeName st') rest with
        | .error e => .error e
        | .ok (db', evs') => .ok (db', evs ++ evs')
    | _, _ => .error .host

/-- Fields registered for a store in the schema. -/
def fieldsOfStore (schema : SchemaM) (storeName : String) : StoreFields :=
  (alookup schema storeName).getD []

/-- Database state resulting from a fallible operation, the input state on
failure (transactional abort). -/
def resDb (db : DBState) : Except DBError (DBState × Event) → DBState
  | .ok (db', _) => db'
  | .error _ => db

/-- Events of a successful batch (none on failure). -/
def resEvents (e : Except DBError (DBState × List Event)) : List Event :=
  match e with
  | .ok (_, evs) => evs
  | .error _ => []

/-- Final database of a batch, the input state on failure. -/
def resBatchDb (db : DBState) (e : Except DBError (DBState × List Event)) : DBState :=
  match e with
  | .ok (db', _) => db'
  | .error _ => db

/-- A two-store schema (string primary keys), concrete input for the
transactional scenarios. -/
def sampleTwoStoreSchema : SchemaM :=
  [("users",
    [("id", FieldDefinitionWithMeta.mk ⟨.string, true, false, none⟩ false true),
     ("name", FieldDefinitionWithMeta.mk ⟨.string, false, false, none⟩ false false)]),
   ("posts",
    [("id", FieldDefinitionWithMeta.mk ⟨.string, true, false, none⟩ false true),
     ("title", FieldDefinitionWithMeta.mk ⟨.string, false, false, none⟩ false false)])]

/-- An empty two-store database. -/
def sampleEmptyDb : DBState := [("users", ⟨1, []⟩), ("posts", ⟨1, []⟩)]

/-- C9: a boolean id passed to `findById`, `update` or `delete` is
rejected with an invalid-key error after the transaction scoping but
before any request is issued to the host store — the request list is
empty and the database state is returned unchanged. -/
theorem c9_boolean_id_rejected (fields : StoreFields) (db : DBState)
    (storeName : String) (id : Value) (data : Rec) (st : StoreSt)
    (hst : alookup db storeName = some st)
    (hb : isBooleanV id = true) :
    findByIdOp fields db storeName id = (.error .invalidKey, []) ∧
    updateOp fields db storeName id data = (.error .invalidKey, db, []) ∧
    deleteOp fields db storeName id = (.error .invalidKey, db, []) := by
  refine ⟨?_, ?_, ?_⟩ <;> simp [findByIdOp, updateOp, deleteOp, hst, hb]

theorem c9_boolean_id_rejected_witness :
    alookup sampleEmptyDb "users" = some ⟨1, []⟩ ∧
    findByIdOp (fieldsOfStore sampleTwoStoreSchema "users") sampleEmptyDb
      "users" (.boolean true) = (.error .invalidKey, []) ∧
    updateOp (fieldsOfStore sampleTwoStoreSchema "users") sampleEmptyDb
      "users" (.boolean true) [] = (.error .invalidKey, sampleEmptyDb, []) ∧
    deleteOp (fieldsOfStore sampleTwoStoreSchema "users") sampleEmptyDb
      "users" (.boolean true) = (.error .invalidKey, sampleEmptyDb, []) :=
  ⟨by decide,
   (c9_boolean_id_rejected _ _ _ _ [] ⟨1, []⟩ (by decide) (by decide)).1,
   (c9_boolean_id_rejected _ _ _ _ [] ⟨1, []⟩ (by decide) (by decide)).2.1,
   (c9_boolean_id_rejected _ _ _ _ [] ⟨1, []⟩ (by decide) (by decide)).2.2⟩

/-- C2: in a transaction whose callback first writes a record to store A
(successfully) and then issues a write to store B that fails, the whole
batch aborts atomically: the database afterwards is the pre-transaction
state, the transaction reports failure, and a `findById` that found
nothing before the transaction still finds nothing after it, on both
stores. -/
theorem c2_transaction_atomicity (schema : SchemaM) (now : Int) (db : DBState)
    (sA sB : String) (ra rb : Rec) (fieldsA fieldsB : StoreFields)
    (idA idB : Value)
    (h1 : isOkE (execCreate schema now db sA ra) = true)
    (h2 : isOkE (execCreate schema now
      (resDb db (execCreate schema now db sA ra)) sB rb) = false) :
    ormTransaction schema now db [.create sA ra, .create sB rb] = (db, false) ∧
    ((findByIdOp fieldsA db sA idA).1 = .ok none →
      (findByIdOp fieldsA
        (ormTransaction schema now db [.create sA ra, .create sB rb]).1
        sA idA).1 = .ok none) ∧
    ((findByIdOp fieldsB db sB idB).1 = .ok none →
      (findByIdOp fieldsB
        (ormTransaction schema now db [.create sA ra, .create sB rb]).1
        sB idB).1 = .ok none) := by
  have hmain : ormTransaction schema now db [.create sA ra, .create sB rb] =
      (db, false) := by
    cases hc1 : execCreate schema now db sA ra with
    | error e => rw [hc1] at h1; simp [isOkE] at h1
    | ok out1 =>
      obtain ⟨db1, ev1⟩ := out1
      rw [hc1] at h2
      simp only [resDb] at h2
      cases hc2 : execCreate schema now db1 sB rb with
      | ok out2 => rw [hc2] at h2; simp [isOkE] at h2
      | error e => simp [ormTransaction, runTrxOps, execOp, hc1, hc2]
  refine ⟨hmain, ?_, ?_⟩ <;> intro h <;> rw [hmain] <;> exact h

theorem c2_transaction_atomicity_witness :
    isOkE (execCreate sampleTwoStoreSchema 0 sampleEmptyDb "users"
      [("id", .str "1"), ("name", .str "John")]) = true ∧
    isOkE (execCreate sampleTwoStoreSchema 0
      (resDb sampleEmptyDb (execCreate sampleTwoStoreSchema 0 sampleEmptyDb
        "users" [("id", .str "1"), ("name", .str "John")]))
      "posts" [("title", .str "1")]) = false ∧
    ormTransaction sampleTwoStoreSchema 0 sampleEmptyDb
      [.create "users" [("id", .str "1"), ("name", .str "John")],
       .create "posts" [("title", .str "1")]] = (sampleEmptyDb, false) :=
  ⟨by decide, by decide,
   (c2_transaction_atomicity sampleTwoStoreSchema 0 sampleEmptyDb "users"
      "posts" [("id", .str "1"), ("name", .str "John")] [("title", .str "1")]
      [] [] .undefV .undefV (by decide) (by decide)).1⟩

/-! ### Lookup lemmas for the JS spread merge -/

theorem alookup_append {β : Type} (l1 l2 : List (String × β)) (g : String) :
    alookup (l1 ++ l2) g = optOr (alookup l1 g) (alookup l2 g) := by
  induction l1 with
  | nil => simp [alookup, optOr]
  | cons kv rest ih =>
    obtain ⟨k, v⟩ := kv
    by_cases h : k = g
    · simp [alookup, h, optOr]
    · simp [alookup, h, ih]

theorem alookup_map_val {β γ : Type} (f : String → β → γ)
    (l : List (String × β)) (g : String) :
    alookup (l.map (fun kv => (kv.1, f kv.1 kv.2))) g = (alookup l g).map (f g) := by
  induction l with
  | nil => rfl
  | cons kv rest ih =>
    obtain ⟨k, v⟩ := kv
    by_cases h : k = g
    · subst h; simp [alookup]
    · simp [alookup, h, ih]

theorem alookup_filter_absent {β : Type} (a b : List (String × β)) (g : String)
    (ha : alookup a g = none) :
    alookup (b.filter (fun kv => (alookup a kv.1).isNone)) g = alookup b g := by
  induction b with
  | nil => rfl
  | cons kv rest ih =>
    obtain ⟨k, v⟩ := kv
    by_cases h : k = g
    · subst h
      simp [List.filter_cons, ha, alookup]
    · by_cases hp : (alookup a k).isNone
      · simp [List.filter_cons, hp, alookup, h, ih]
      · simp [List.filter_cons, hp, alookup, h, ih]

theorem alookup_jsMerge (a b : Rec) (g : String) :
    alookup (jsMerge a b) g = optOr (alookup b g) (alookup a g) := by
  rw [jsMerge, alookup_append, alookup_map_val (fun k v => (alookup b k).getD v)]
  cases ha : alookup a g with
  | none =>
    rw [alookup_filter_absent a b g ha]
    cases alookup b g <;> simp [optOr]
  | some v =>
    cases hb : alookup b g <;> simp [optOr, hb]

theorem findRecord_mem {fields : StoreFields} {recs : List Rec} {id : Value}
    {r : Rec} {pk : String} (hpk : pkFieldOf fields = some pk)
    (h : findRecord fields recs id = some r) :
    r ∈ recs ∧ alookup r pk = some id := by
  unfold findRecord at h
  rw [hpk] at h
  exact ⟨List.mem_of_find?_eq_some h, by simpa using List.find?_some h⟩

theorem find?_map_replace (pk : String) (id : Value) (data : Rec)
    (recs : List Rec)
    (hmem : ∃ r ∈ recs, alookup r pk = some id)
    (hdata : alookup data pk = some id) :
    (recs.map (fun r => if alookup r pk = some id then data else r)).find?
      (fun r => decide (alookup r pk = some id)) = some data := by
  induction recs with
  | nil => simp at hmem
  | cons r0 rest ih =>
    by_cases h0 : alookup r0 pk = some id
    · simp [List.map_cons, h0, List.find?_cons_of_pos, hdata]
    · obtain ⟨r, hr, hrpk⟩ := hmem
      rcases List.mem_cons.mp hr with heq | hr'
      · exact absurd (heq ▸ hrpk) h0
      · rw [List.map_cons, if_neg h0,
          List.find?_cons_of_neg _ (by simpa using h0)]
        exact ih ⟨r, hr', hrpk⟩

theorem alookup_updateStore_self (db : DBState) (n : String) (st : StoreSt)
    (h : (alookup db n).isSome) :
    alookup (updateStore db n st) n = some st := by
  induction db with
  | nil => simp [alookup] at h
  | cons s rest ih =>
    obtain ⟨k, v⟩ := s
    show alookup ((if (k, v).1 = n then (n, st) else (k, v)) ::
      updateStore rest n st) n = some st
    by_cases hk : k = n
    · subst hk
      rw [show (if (k, v).1 = k then (k, st) else (k, v)) = (k, st) from
        if_pos rfl]
      simp [alookup]
    · rw [if_neg (show ¬((k, v).1 = n) from hk)]
      simp only [alookup] at h ⊢
      rw [if_neg hk] at h ⊢
      exact ih h

theorem alookup_updateStore_ne (db : DBState) (n : String) (st : StoreSt)
    (g : String) (h : n ≠ g) :
    alookup (updateStore db n st) g = alookup db g := by
  induction db with
  | nil => rfl
  | cons s rest ih =>
    obtain ⟨k, v⟩ := s
    show alookup ((if (k, v).1 = n then (n, st) else (k, v)) ::
      updateStore rest n st) g = alookup ((k, v) :: rest) g
    by_cases hk : k = n
    · subst hk
      rw [show (if (k, v).1 = k then (k, st) else (k, v)) = (k, st) from
        if_pos rfl]
      simp [alookup, h, ih]
    · rw [if_neg (show ¬((k, v).1 = n) from hk)]
      by_cases hg : k = g
      · simp [alookup, hg]
      · simp [alookup, hg, ih]

/-- C4: for a record that exists under `id`, a successful
`update(id, data)` writes back exactly the JS merge of the partial over
the existing record: the primary-key field keeps its value (the typed
partial cannot name it — hypothesis `hnopk`), every field absent from the
partial keeps the existing value, every field present in the partial
takes the partial's value, and the merged record is both the returned
value and the record emitted with the `update` event, and is what a
subsequent lookup of `id` in the written-back store finds. -/
theorem c4_update_merges_and_preserves (fields : StoreFields) (db : DBState)
    (storeName : String) (id : Value) (data : Rec) (st : StoreSt)
    (existing : Rec) (pk : String)
    (hb : isBooleanV id = false)
    (hst : alookup db storeName = some st)
    (hpk : pkFieldOf fields = some pk)
    (hfind : findRecord fields st.recs id = some existing)
    (hnopk : alookup data pk = none)
    (hok : isOkE (updateOp fields db storeName id data).1 = true) :
    (updateOp fields db storeName id data).1 =
      .ok (jsMerge existing data, .update storeName (jsMerge existing data)) ∧
    alookup (jsMerge existing data) pk = alookup existing pk ∧
    (∀ f, alookup data f = none →
      alookup (jsMerge existing data) f = alookup existing f) ∧
    (∀ f v, alookup data f = some v →
      alookup (jsMerge existing data) f = some v) ∧
    findRecord fields
      ((alookup (updateOp fields db storeName id data).2.1 storeName).getD
        ⟨0, []⟩).recs id = some (jsMerge existing data) := by
  obtain ⟨hmem, hexpk⟩ := findRecord_mem hpk hfind
  have hexq : alookup (jsMerge existing data) pk = some id := by
    rw [alookup_jsMerge, hnopk, optOr, hexpk]
  have hany : st.recs.any (fun r => decide (alookup r pk = some id)) = true :=
    List.any_eq_true.mpr ⟨existing, hmem, by simp [hexpk]⟩
  by_cases hvk : validKey id
  case neg =>
    exfalso
    have : (updateOp fields db storeName id data).1 = .error .dataErr := by
      simp [updateOp, hst, hb, hfind, putRecord, hpk, hexq, hvk]
    rw [this] at hok
    simp [isOkE] at hok
  case pos =>
  by_cases hucl :
      uniqueClashExcluding fields st.recs (jsMerge existing data) pk id = true
  case pos =>
    exfalso
    have : (updateOp fields db storeName id data).1 = .error .constraint := by
      simp [updateOp, hst, hb, hfind, putRecord, hpk, hexq, hvk, hucl]
    rw [this] at hok
    simp [isOkE] at hok
  case neg =>
  have hput : putRecord fields st (jsMerge existing data) =
      .ok (⟨st.keyGen, st.recs.map
        (fun r => if alookup r pk = some id then jsMerge existing data else r)⟩,
        id) := by
    simp [putRecord, hpk, hexq, hvk, hucl, hany]
  have hupd : updateOp fields db storeName id data =
      (.ok (jsMerge existing data, .update storeName (jsMerge existing data)),
        updateStore db storeName
          ⟨st.keyGen, st.recs.map
            (fun r => if alookup r pk = some id then jsMerge existing data else r)⟩,
        [.get storeName id, .put storeName (jsMerge existing data)]) := by
    simp [updateOp, hst, hb, hfind, hput]
  refine ⟨by rw [hupd], by rw [hexq, hexpk], ?_, ?_, ?_⟩
  · intro f hf
    rw [alookup_jsMerge, hf, optOr]
  · intro f v hf
    rw [alookup_jsMerge, hf, optOr]
  · rw [hupd]
    have hself := alookup_updateStore_self db storeName
      ⟨st.keyGen, st.recs.map
        (fun r => if alookup r pk = some id then jsMerge existing data else r)⟩
      (by rw [hst]; rfl)
    simp only [hself, Option.getD_some]
    unfold findRecord
    rw [hpk]
    exact find?_map_replace pk id (jsMerge existing data) st.recs
      ⟨existing, hmem, hexpk⟩ hexq

/-- A one-record users store, concrete input for the update scenario. -/
def sampleOneUserDb : DBState :=
  [("users", ⟨1, [[("id", .str "1"), ("name", .str "John")]]⟩)]

theorem c4_update_merges_and_preserves_witness :
    (updateOp (fieldsOfStore sampleTwoStoreSchema "users") sampleOneUserDb
      "users" (.str "1") [("name", .str "Johnny")]).1 =
      .ok (jsMerge [("id", .str "1"), ("name", .str "John")]
            [("name", .str "Johnny")],
        .update "users" (jsMerge [("id", .str "1"), ("name", .str "John")]
            [("name", .str "Johnny")])) ∧
    alookup (jsMerge [("id", .str "1"), ("name", .str "John")]
      [("name", .str "Johnny")]) "name" = some (.str "Johnny") :=
  ⟨(c4_update_merges_and_preserves (fieldsOfStore sampleTwoStoreSchema "users")
      sampleOneUserDb "users" (.str "1") [("name", .str "Johnny")]
      ⟨1, [[("id", .str "1"), ("name", .str "John")]]⟩
      [("id", .str "1"), ("name", .str "John")] "id"
      (by decide) (by decide) (by decide) (by decide) (by decide) (by decide)).1,
   (c4_update_merges_and_preserves (fieldsOfStore sampleTwoStoreSchema "users")
      sampleOneUserDb "users" (.str "1") [("name", .str "Johnny")]
      ⟨1, [[("id", .str "1"), ("name", .str "John")]]⟩
      [("id", .str "1"), ("name", .str "John")] "id"
      (by decide) (by decide) (by decide) (by decide) (by decide) (by decide)).2.2.2.1
      "name" (.str "Johnny") (by decide)⟩

theorem addRecord_ok_of_pk {fields : StoreFields} {st : StoreSt} {data : Rec}
    {pk : String} {v : Value} {out : StoreSt × Value}
    (hpk : pkFieldOf fields = some pk) (hv : alookup data pk = some v)
    (h : addRecord fields st data = .ok out) :
    out = (⟨st.keyGen, st.recs ++ [data]⟩, v) := by
  simp only [addRecord, hpk, hv] at h
  split at h
  · simp at h
  · split at h
    · simp at h
    · split at h
      · simp at h
      · exact (Except.ok.inj h).symm

theorem addRecord_pk_exists {fields : StoreFields} {st : StoreSt} {data : Rec}
    {out : StoreSt × Value} (h : addRecord fields st data = .ok out) :
    ∃ pk, pkFieldOf fields = some pk := by
  cases hpk : pkFieldOf fields with
  | none => rw [addRecord, hpk] at h; cases h
  | some pk => exact ⟨pk, rfl⟩

theorem seedRecs_ok (fields : StoreFields) (storeName : String) (now : Int) :
    ∀ (records : List Rec) (st st' : StoreSt) (evs : List Event),
      seedRecs fields storeName now st records = .ok (st', evs) →
      evs = records.map (fun r =>
        Event.create storeName (applyDefaults fields now r)) ∧
      ((∀ r ∈ records, ∀ pk, pkFieldOf fields = some pk →
          (alookup (applyDefaults fields now r) pk).isSome) →
        st' = ⟨st.keyGen,
          st.recs ++ records.map (fun r => applyDefaults fields now r)⟩) := by
  intro records
  induction records with
  | nil =>
    intro st st' evs h
    simp only [seedRecs] at h
    obtain ⟨h1, h2⟩ := Prod.mk.injEq .. ▸ Except.ok.inj h
    constructor
    · exact h2.symm
    · intro _
      rw [← h1]
      simp
  | cons record rest ih =>
    intro st st' evs h
    cases ha : addRecord fields st (applyDefaults fields now record) with
    | error e => simp [seedRecs, ha] at h
    | ok x =>
      cases hs : seedRecs fields storeName now x.1 rest with
      | error e => simp [seedRecs, ha, hs] at h
      | ok y =>
        have hy := ih x.1 y.1 y.2 (by rw [hs])
        simp only [seedRecs, ha, hs] at h
        obtain ⟨h1, h2⟩ := Prod.mk.injEq .. ▸ Except.ok.inj h
        constructor
        · rw [← h2, List.map_cons, hy.1]
        · intro hall
          obtain ⟨pk, hpk⟩ := addRecord_pk_exists ha
          obtain ⟨v, hv⟩ := Option.isSome_iff_exists.mp
            (hall record (List.mem_cons_self _ _) pk hpk)
          have hx := addRecord_ok_of_pk hpk hv ha
          have hrest := hy.2 (fun r hr => hall r (List.mem_cons_of_mem _ hr))
          rw [← h1, hrest, hx]
          simp

theorem seedOp_ok (schema : SchemaM) (now : Int) :
    ∀ (data : List (String × List Rec)) (db db' : DBState) (evs : List Event),
      seedOp schema now db data = .ok (db', evs) →
      evs = (data.map (fun p => p.2.map (fun r =>
        Event.create p.1 (applyDefaults (fieldsOfStore schema p.1) now r)))).flatten ∧
      ((data.map Prod.fst).Nodup →
        (∀ p ∈ data, ∀ r ∈ p.2, ∀ pk,
          pkFieldOf (fieldsOfStore schema p.1) = some pk →
          (alookup (applyDefaults (fieldsOfStore schema p.1) now r) pk).isSome) →
        (∀ p ∈ data,
          ((alookup db' p.1).getD ⟨0, []⟩).recs =
            ((alookup db p.1).getD ⟨0, []⟩).recs ++
              p.2.map (fun r => applyDefaults (fieldsOfStore schema p.1) now r)) ∧
        (∀ s, s ∉ data.map Prod.fst → alookup db' s = alookup db s)) := by
  intro data
  induction data with
  | nil =>
    intro db db' evs h
    simp only [seedOp] at h
    obtain ⟨h1, h2⟩ := Prod.mk.injEq .. ▸ Except.ok.inj h
    refine ⟨h2.symm, fun _ _ => ⟨fun p hp => absurd hp (List.not_mem_nil p), ?_⟩⟩
    intro s _
    rw [← h1]
  | cons entry rest ih =>
    intro db db' evs h
    obtain ⟨storeName, records⟩ := entry
    cases hf : alookup schema storeName with
    | none => rw [seedOp, hf] at h; cases h
    | some fields =>
    cases hd : alookup db storeName with
    | none => rw [seedOp, hf, hd] at h; cases h
    | some st =>
    cases hs : seedRecs fields storeName now st records with
    | error e => simp [seedOp, hf, hd, hs] at h
    | ok x =>
    obtain ⟨st1, evs1⟩ := x
    cases hrest : seedOp schema now (updateStore db storeName st1) rest with
    | error e => simp [seedOp, hf, hd, hs, hrest] at h
    | ok y =>
    obtain ⟨db2, evs2⟩ := y
    simp only [seedOp, hf, hd, hs, hrest] at h
    obtain ⟨h1, h2⟩ := Prod.mk.injEq .. ▸ Except.ok.inj h
    have hfields : fieldsOfStore schema storeName = fields := by
      rw [fieldsOfStore, hf]; rfl
    have hsr := seedRecs_ok fields storeName now records st st1 evs1 hs
    have hir := ih (updateStore db storeName st1) db2 evs2 hrest
    constructor
    · rw [← h2, List.map_cons, List.flatten_cons, hir.1, hsr.1, hfields]
    · intro hnd hall
      rw [List.map_cons, List.nodup_cons] at hnd
      have hx1 : st1 = ⟨st.keyGen,
          st.recs ++ records.map (fun r => applyDefaults fields now r)⟩ :=
        hsr.2 (fun r hr pk hpk => by
          have hh := hall (storeName, records) (List.mem_cons_self _ _) r hr pk
            (by rw [hfields]; exact hpk)
          rw [hfields] at hh
          exact hh)
      have hframe := (hir.2 hnd.2 (fun p hp r hr pk hpk =>
        hall p (List.mem_cons_of_mem _ hp) r hr pk hpk)).2
      have hcontents := (hir.2 hnd.2 (fun p hp r hr pk hpk =>
        hall p (List.mem_cons_of_mem _ hp) r hr pk hpk)).1
      constructor
      · intro p hp
        rcases List.mem_cons.mp hp with heq | hp'
        · subst heq
          have hsn : alookup db2 storeName = some st1 := by
            rw [hframe storeName hnd.1,
              alookup_updateStore_self db storeName st1 (by rw [hd]; rfl)]
          show ((alookup db' storeName).getD ⟨0, []⟩).recs =
            ((alookup db storeName).getD ⟨0, []⟩).recs ++
              records.map (fun r =>
                applyDefaults (fieldsOfStore schema storeName) now r)
          rw [← h1, hsn, hd, hx1, hfields]
          simp
        · have hne : storeName ≠ p.1 := by
            intro he
            exact hnd.1 (he ▸ List.mem_map.mpr ⟨p, hp', rfl⟩)
          rw [← h1, hcontents p hp',
            alookup_updateStore_ne db storeName st1 p.1 hne]
      · intro s hsmem
        rw [List.map_cons] at hsmem
        have hs1 : storeName ≠ s := fun he =>
          hsmem (he ▸ List.mem_cons_self _ _)
        have hs2 : s ∉ rest.map Prod.fst := fun hm =>
          hsmem (List.mem_cons_of_mem _ hm)
        rw [← h1, hframe s hs2,
          alookup_updateStore_ne db storeName st1 s hs1]

/-- Decidable per-record primary-key-presence condition on a seed input:
every materialized record carries a value for its store's primary-key
field (so the host assigns no keys itself). -/
def seedPkPresent (schema : SchemaM) (now : Int)
    (data : List (String × List Rec)) : Bool :=
  data.all (fun p => p.2.all (fun r =>
    match pkFieldOf (fieldsOfStore schema p.1) with
    | some pk =>
      (alookup (applyDefaults (fieldsOfStore schema p.1) now r) pk).isSome
    | none => true))

/-- C7: a successful `seed` call over N records (spread across any
stores) emits exactly N `create` events — one per record, in order,
carrying the default-materialized record — and persists in each seeded
store exactly the materialized records (defaults applied before each
write), leaving every other store untouched; all the writes belong to the
batch's single transaction. -/
theorem c7_seed_events_and_defaults (schema : SchemaM) (now : Int)
    (db : DBState) (data : List (String × List Rec))
    (hnd : (data.map Prod.fst).Nodup)
    (hpk : seedPkPresent schema now data = true)
    (hok : isOkE (seedOp schema now db data) = true) :
    resEvents (seedOp schema now db data) =
      (data.map (fun p => p.2.map (fun r =>
        Event.create p.1 (applyDefaults (fieldsOfStore schema p.1) now r)))).flatten ∧
    (resEvents (seedOp schema now db data)).length =
      (data.map (fun p => p.2.length)).sum ∧
    (∀ p ∈ data,
      ((alookup (resBatchDb db (seedOp schema now db data)) p.1).getD ⟨0, []⟩).recs =
        ((alookup db p.1).getD ⟨0, []⟩).recs ++
          p.2.map (fun r => applyDefaults (fieldsOfStore schema p.1) now r)) ∧
    (∀ s, s ∉ data.map Prod.fst →
      alookup (resBatchDb db (seedOp schema now db data)) s = alookup db s) := by
  cases hres : seedOp schema now db data with
  | error e => rw [hres] at hok; simp [isOkE] at hok
  | ok out =>
    obtain ⟨db', evs⟩ := out
    have hall : ∀ p ∈ data, ∀ r ∈ p.2, ∀ pk,
        pkFieldOf (fieldsOfStore schema p.1) = some pk →
        (alookup (applyDefaults (fieldsOfStore schema p.1) now r) pk).isSome := by
      intro p hp r hr pk hpkeq
      have h1 := List.all_eq_true.mp hpk p hp
      have h2 := List.all_eq_true.mp h1 r hr
      rw [hpkeq] at h2
      exact h2
    have hmain := seedOp_ok schema now data db db' evs hres
    have hrest := hmain.2 hnd hall
    refine ⟨?_, ?_, ?_, ?_⟩
    · exact hmain.1
    · show evs.length = _
      rw [hmain.1]
      simp [List.length_flatten, List.map_map, Function.comp_def]
    · intro p hp
      show ((alookup db' p.1).getD ⟨0, []⟩).recs = _
      exact hrest.1 p hp
    · intro s hs
      show alookup db' s = alookup db s
      exact hrest.2 s hs

/-- A three-record seed input over the two sample stores. -/
def sampleSeedData : List (String × List Rec) :=
  [("users", [[("id", .str "1"), ("name", .str "John")],
              [("id", .str "2"), ("name", .str "Jane")]]),
   ("posts", [[("id", .str "1"), ("title", .str "Hello")]])]

theorem c7_seed_events_and_defaults_witness :
    (sampleSeedData.map Prod.fst).Nodup ∧
    seedPkPresent sampleTwoStoreSchema 0 sampleSeedData = true ∧
    isOkE (seedOp sampleTwoStoreSchema 0 sampleEmptyDb sampleSeedData) = true ∧
    (resEvents (seedOp sampleTwoStoreSchema 0 sampleEmptyDb sampleSeedData)).length =
      (sampleSeedData.map (fun p => p.2.length)).sum :=
  ⟨by decide, by decide, by decide,
   (c7_seed_events_and_defaults sampleTwoStoreSchema 0 sampleEmptyDb
      sampleSeedData (by decide) (by decide) (by decide)).2.1⟩

/-! ## Event bus (`ORM.events`)

Callbacks are function references; `off` removes by reference equality,
so references are modelled as numeric identities. The three event kinds
have independent handler arrays and the operations touch only their own
kind's array, so one kind's array is modelled. -/

/-- An event kind's bus state: the ordered subscriber array (function
references), the wrapped-callback table created by `once` (wrapper
reference to wrapped callback), and the allocator for the fresh wrapper
closures `once` creates. -/
structure EvState where
  handlers : List Nat
  wraps : List (Nat × Nat)
  nextRef : Nat
deriving DecidableEq, Repr

/-- Subscription `on(kind, cb)`: capture `index = handlers.length`,
append the callback, and return the state together with the captured
index that the returned unsubscribe closure will `splice` at. -/
def evOn (s : EvState) (cb : Nat) : EvState × Nat :=
  ({ s with handlers := s.handlers ++ [cb] }, s.handlers.length)

/-- The unsubscribe closure returned by `on`:
`eventHandlers[kind].splice(index, 1)` on the current array, with the
index captured at subscription time. -/
def evUnsubAt (s : EvState) (index : Nat) : EvState :=
  { s with handlers := s.handlers.take index ++ s.handlers.drop (index + 1) }

/-- Removal `off(kind, cb)`: replace the array with every handler that is
not the given function reference. -/
def evOff (s : EvState) (cb : Nat) : EvState :=
  { s with handlers := s.handlers.filter (fun h => decide (h ≠ cb)) }

/-- Subscription `once(kind, cb)`: create a fresh wrapper closure that
invokes `cb` and then `off`s itself, and subscribe the wrapper with
`on` (discarding the returned unsubscribe closure). -/
def evOnce (s : EvState) (cb : Nat) : EvState :=
  let w := s.nextRef
  (evOn { s with wraps := s.wraps ++ [(w, cb)], nextRef := w + 1 } w).1

/-- The dispatch loop of `trigger`: iterate over the snapshot of the
subscriber array taken when the dispatch started (`off` during dispatch
replaces the array with a fresh one, leaving the iterated snapshot
intact); a plain handler is invoked directly, a wrapper invokes its
wrapped callback and then `off`s itself. Accumulates the invoked
callbacks in order. -/
def evTriggerAux (wraps : List (Nat × Nat)) :
    List Nat → EvState → List Nat → EvState × List Nat
  | [], s, invoked => (s, invoked)
  | r :: rest, s, invoked =>
    match alookup wraps r with
    | some cb => evTriggerAux wraps rest (evOff s r) (invoked ++ [cb])
    | none => evTriggerAux wraps rest s (invoked ++ [r])

/-- Dispatch `trigger(kind, store, record)`: run the loop over the current
subscriber array, returning the state afterwards and the list of invoked
callbacks. -/
def evTrigger (s : EvState) : EvState × List Nat :=
  evTriggerAux s.wraps s.handlers s []

/-- C6 counterexample: invoking the unsubscribe closure returned by `on`
does **not** guarantee the callback stops being invoked. With callbacks
`1` and `2`: `on(1)` (index 0), `on(2)` (captured index 1), then
`off(1)` shrinks the array to `[2]`; invoking callback 2's unsubscribe
closure splices at the stale index 1 and removes nothing, and a
subsequent trigger still invokes callback 2. -/
theorem c6_counterexample_stale_unsubscribe :
    (evTrigger (evUnsubAt (evOff (evOn (evOn ⟨[], [], 10⟩ 1).1 2).1 1)
        (evOn (evOn ⟨[], [], 10⟩ 1).1 2).2)).2 = [2] ∧
    (evTrigger (evUnsubAt (evOff (evOn (evOn ⟨[], [], 10⟩ 1).1 2).1 1)
        (evOn (evOn ⟨[], [], 10⟩ 1).1 2).2)).2 ≠ [] := by
  constructor
  · decide
  · decide

/-- C6 (amended): removal by `off` with the original callback reference,
and the automatic self-removal after the first invocation of a `once`
subscription, do prevent later invocations: a `once` subscriber captures
exactly one event across two subsequent triggers, and a callback passed
to `on` then `off` captures zero. The unsubscribe closure returned by
`on`, however, splices at the index captured at subscription time, so it
removes the subscribed callback only when no lower-indexed handler has
been removed since subscription (as in the scenario proved here, where
nothing was removed before it runs); after earlier removals it can remove
a different handler or none, and the callback can keep firing. -/
theorem c6_amended_event_removal (cb : Nat) :
    ((evTrigger (evOnce ⟨[], [], cb + 1⟩ cb)).2 = [cb] ∧
      (evTrigger (evTrigger (evOnce ⟨[], [], cb + 1⟩ cb)).1).2 = []) ∧
    (evTrigger (evOff (evOn ⟨[], [], cb + 1⟩ cb).1 cb)).2 = [] ∧
    (evTrigger (evUnsubAt (evOn ⟨[], [], cb + 1⟩ cb).1
        (evOn ⟨[], [], cb + 1⟩ cb).2)).2 = [] := by
  refine ⟨⟨?_, ?_⟩, ?_, ?_⟩
  · simp [evOnce, evOn, evTrigger, evTriggerAux, alookup, evOff]
  · simp [evOnce, evOn, evTrigger, evTriggerAux, alookup, evOff]
  · simp [evOn, evOff, evTrigger, evTriggerAux]
  · simp [evOn, evUnsubAt, evTrigger, evTriggerAux]

end NearOrm
